import Mathlib

/-!
Verification development for the go-sq-tool repository.

The WAV reader/writer (src/internal/wav/wav.go, and the older revision of the
same file) is embedded at byte level: bytes are `Fin 256`, streams are
`List Byte`, Go's `float64` is embedded as the exact type `GoFloat`
(NaN / signed infinity / exact rational), and fallible Go functions return
`Option`.  Machine integer truncation (uint16 / uint32 / int16) is modelled
with explicit `% 2^w` arithmetic.  Floating-point arithmetic on sample values
is modelled exactly over `ℚ`; the spec's tolerances absorb the difference.

The SQ encoder/decoder sources are not part of the repository snapshot (only
their round-trip test is), so the front-channel path is modelled from the
spec; see the `SQModel` namespace below.
-/

set_option allowUnsafeReducibility true in
attribute [semireducible] Rat.add Rat.sub Rat.mul Rat.inv Rat.ofScientific

/-- A byte, as read from or written to a WAV stream. -/
abbrev Byte := Fin 256

/-- Truncate a natural number to a byte (Go's implicit `byte(n)` wrap). -/
def byte (n : ℕ) : Byte := ⟨n % 256, Nat.mod_lt _ (by norm_num)⟩

/-- Little-endian unsigned 16-bit value of two bytes (`binary.LittleEndian`). -/
def u16val (lo hi : Byte) : ℕ := lo.val + 256 * hi.val

/-- Little-endian unsigned 32-bit value of four bytes. -/
def u32val (b0 b1 b2 b3 : Byte) : ℕ :=
  b0.val + 256 * b1.val + 65536 * b2.val + 16777216 * b3.val

/-- Little-endian encoding of a `uint16` (Go truncates to 16 bits). -/
def u16le (n : ℕ) : List Byte := [byte n, byte (n / 256)]

/-- Little-endian encoding of a `uint32` (Go truncates to 32 bits). -/
def u32le (n : ℕ) : List Byte := [byte n, byte (n / 256), byte (n / 65536), byte (n / 16777216)]

/-- Reinterpret an unsigned 16-bit value as Go's signed `int16`. -/
def toInt16 (u : ℕ) : ℤ := if u < 32768 then (u : ℤ) else (u : ℤ) - 65536

/-- Little-endian encoding of an `int16` value (two's complement). -/
def int16le (v : ℤ) : List Byte := u16le (v % 65536).toNat

/-- Sign-extended 24-bit PCM sample from three little-endian bytes
(embeds `readPCM24Sample` in src/internal/wav/wav.go). -/
def readPCM24Val (b0 b1 b2 : Byte) : ℤ :=
  let v : ℕ := b0.val + 256 * b1.val + 65536 * b2.val
  if v < 8388608 then (v : ℤ) else (v : ℤ) - 16777216

/-- Exact embedding of Go's `float64` values: NaN, signed infinities, or an
exact finite value.  Finite arithmetic is modelled exactly over `ℚ`. -/
inductive GoFloat
  | nan : GoFloat
  | inf (pos : Bool) : GoFloat
  | finite (q : ℚ) : GoFloat
  deriving DecidableEq

/-- Go's `v > 1.0` comparison (false for NaN, true for `+Inf`). -/
def GoFloat.gtOne : GoFloat → Bool
  | .nan => false
  | .inf pos => pos
  | .finite q => decide (1 < q)

/-- Go's `v < -1.0` comparison (false for NaN, true for `-Inf`). -/
def GoFloat.ltNegOne : GoFloat → Bool
  | .nan => false
  | .inf pos => !pos
  | .finite q => decide (q < -1)

/-- Go's `math.IsNaN`. -/
def GoFloat.isNaN : GoFloat → Bool
  | .nan => true
  | _ => false

/-- Go's `math.IsInf(v, 0)`. -/
def GoFloat.isInfB : GoFloat → Bool
  | .inf _ => true
  | _ => false

/-- Go's `math.Round`: nearest integer, ties rounded half away from zero. -/
def goRound (x : ℚ) : ℤ := if 0 ≤ x then (x + 1 / 2).floor else -((1 / 2 - x).floor)

/-- Embeds `floatToPCM16` (src/internal/wav/wav.go lines 477-488):
NaN and infinities are zeroed, then the value saturates at ±1.0 and is
otherwise scaled by 32767 and rounded half away from zero. -/
def floatToPCM16 (v : GoFloat) : ℤ :=
  let q : ℚ := match v with
    | .nan => 0
    | .inf _ => 0
    | .finite q => q
  if 1 ≤ q then 32767
  else if q ≤ -1 then -32768
  else goRound (q * 32767)

/-- Decode an IEEE-754 binary32 bit pattern into a `GoFloat`
(the `var v float32; binary.Read(...)` step of the float32 read path). -/
def decodeFloat32 (u : ℕ) : GoFloat :=
  let s : ℕ := u / 2 ^ 31
  let e : ℕ := u / 2 ^ 23 % 256
  let m : ℕ := u % 2 ^ 23
  let sign : ℚ := if s = 0 then 1 else -1
  if e = 255 then (if m = 0 then .inf (s = 0) else .nan)
  else if e = 0 then .finite (sign * (m : ℚ) / 2 ^ 149)
  else .finite (sign * ((2 ^ 23 + m : ℕ) : ℚ) * 2 ^ e / 2 ^ 150)

/-- The float32 read-path sanitization (src/internal/wav/wav.go lines 431-440):
NaN and infinities become 0 first, then the value is clamped to [-1, 1]. -/
def sanitizeFloat32Read (g : GoFloat) : ℚ :=
  match g with
  | .nan => 0
  | .inf _ => 0
  | .finite q => if 1 < q then 1 else if q < -1 then -1 else q

/-- The float32 write-path value transformation
(src/internal/wav/wav.go lines 264-272), with the source's branch order:
`val > 1.0` first, `val < -1.0` second, NaN/Inf check last. -/
def clampForFloat32Write (v : GoFloat) : GoFloat :=
  if v.gtOne then .finite 1
  else if v.ltNegOne then .finite (-1)
  else if v.isNaN || v.isInfB then .finite 0
  else v

/-- Embeds the `wavFormat` struct of src/internal/wav/wav.go. -/
structure WavFmt where
  audioFormat : ℕ
  numChannels : ℕ
  sampleRate : ℕ
  byteRate : ℕ
  blockAlign : ℕ
  bitsPerSample : ℕ
  deriving DecidableEq

/-- Embeds the `AudioData` struct of src/internal/wav/wav.go.  Go's
`NumSamples int` is embedded as `ℤ` (the writer checks for negative values). -/
structure AudioData where
  sampleRate : ℕ
  samples : List (List GoFloat)
  numSamples : ℤ
  deriving DecidableEq

/-- `io.ReadFull` on a byte list: the first `n` bytes and the remainder,
or `none` when fewer than `n` bytes remain. -/
def takeExact (n : ℕ) (bs : List Byte) : Option (List Byte × List Byte) :=
  if n ≤ bs.length then some (bs.take n, bs.drop n) else none

/-- `binary.Read` of a little-endian `uint16`. -/
def readU16 : List Byte → Option (ℕ × List Byte)
  | b0 :: b1 :: rest => some (u16val b0 b1, rest)
  | _ => none

/-- `binary.Read` of a little-endian `uint32`. -/
def readU32 : List Byte → Option (ℕ × List Byte)
  | b0 :: b1 :: b2 :: b3 :: rest => some (u32val b0 b1 b2 b3, rest)
  | _ => none

/-- The ASCII bytes of the RIFF tag. -/
def riffID : List Byte := [byte 82, byte 73, byte 70, byte 70]

/-- The ASCII bytes of the WAVE tag. -/
def waveID : List Byte := [byte 87, byte 65, byte 86, byte 69]

/-- The ASCII bytes of the fmt chunk id (with the trailing space). -/
def fmtID : List Byte := [byte 102, byte 109, byte 116, byte 32]

/-- The ASCII bytes of the data chunk id. -/
def dataID : List Byte := [byte 100, byte 97, byte 116, byte 97]

/-- The fmt-chunk handler of `readWAV` (both revisions): requires a declared
size of at least 16, reads the six format fields, and skips any extension
bytes (`io.CopyN` fails when fewer than the declared bytes remain). -/
def parseFmt (chunkSize : ℕ) (bs : List Byte) : Option (WavFmt × List Byte) :=
  if chunkSize < 16 then none
  else
    match readU16 bs with
    | none => none
    | some (af, bs₁) =>
      match readU16 bs₁ with
      | none => none
      | some (nc, bs₂) =>
        match readU32 bs₂ with
        | none => none
        | some (sr, bs₃) =>
          match readU32 bs₃ with
          | none => none
          | some (br, bs₄) =>
            match readU16 bs₄ with
            | none => none
            | some (ba, bs₅) =>
              match readU16 bs₅ with
              | none => none
              | some (bps, bs₆) =>
                if chunkSize - 16 ≤ bs₆.length then
                  some (⟨af, nc, sr, br, ba, bps⟩, bs₆.drop (chunkSize - 16))
                else none

/-- One PCM16 sample of the read path: two little-endian bytes as a signed
16-bit value, divided by 32768.0. -/
def readSample16 : List Byte → Option (GoFloat × List Byte)
  | b0 :: b1 :: rest => some (.finite ((toInt16 (u16val b0 b1) : ℚ) / 32768), rest)
  | _ => none

/-- One PCM24 sample of the read path: `readPCM24Sample` divided by 8388608.0.
Only the current revision of wav.go supports this format. -/
def readSample24 : List Byte → Option (GoFloat × List Byte)
  | b0 :: b1 :: b2 :: rest => some (.finite ((readPCM24Val b0 b1 b2 : ℚ) / 8388608), rest)
  | _ => none

/-- One IEEE float32 sample of the read path: decode the bit pattern, zero
NaN and infinities, clamp to [-1, 1]. -/
def readSampleF32 : List Byte → Option (GoFloat × List Byte)
  | b0 :: b1 :: b2 :: b3 :: rest =>
    some (.finite (sanitizeFloat32Read (decodeFloat32 (u32val b0 b1 b2 b3))), rest)
  | _ => none

/-- Read one interleaved frame: one sample per channel, in channel order. -/
def readFrame (rd : List Byte → Option (GoFloat × List Byte)) :
    ℕ → List Byte → Option (List GoFloat × List Byte)
  | 0, bs => some ([], bs)
  | ch + 1, bs =>
    match rd bs with
    | none => none
    | some (v, bs₁) =>
      match readFrame rd ch bs₁ with
      | none => none
      | some (vs, bs₂) => some (v :: vs, bs₂)

/-- Read `n` interleaved frames (the `for i { for ch { ... } }` loops of the
data-chunk handler). -/
def readFrames (rd : List Byte → Option (GoFloat × List Byte)) :
    ℕ → ℕ → List Byte → Option (List (List GoFloat) × List Byte)
  | 0, _, bs => some ([], bs)
  | n + 1, ch, bs =>
    match readFrame rd ch bs with
    | none => none
    | some (fr, bs₁) =>
      match readFrames rd n ch bs₁ with
      | none => none
      | some (frs, bs₂) => some (fr :: frs, bs₂)

/-- Rearrange the interleaved frames into the `samplesByChannel` layout. -/
def deinterleave (channels : ℕ) (frames : List (List GoFloat)) : List (List GoFloat) :=
  (List.range channels).map (fun ch => frames.map (fun fr => fr.getD ch (.finite 0)))

/-- Select the per-sample reader of the current wav.go revision for a given
(audioFormat, bitsPerSample) pair: PCM 16/24-bit and IEEE float32. -/
def sampleReader (audioFormat bitsPerSample : ℕ) :
    Option (List Byte → Option (GoFloat × List Byte)) :=
  if audioFormat = 1 then
    if bitsPerSample = 16 then some readSample16
    else if bitsPerSample = 24 then some readSample24
    else none
  else if audioFormat = 3 then
    (if bitsPerSample = 32 then some readSampleF32 else none)
  else none

/-- Select the per-sample reader of the older wav.go revision
(src/unnamed/part_000): PCM 16-bit and IEEE float32 only. -/
def sampleReaderOld (audioFormat bitsPerSample : ℕ) :
    Option (List Byte → Option (GoFloat × List Byte)) :=
  if audioFormat = 1 then
    (if bitsPerSample = 16 then some readSample16 else none)
  else if audioFormat = 3 then
    (if bitsPerSample = 32 then some readSampleF32 else none)
  else none

/-- The data-chunk handler of `readWAV`, parameterized by the format's sample
reader selection (the only point where the two wav.go revisions differ):
requires a previously seen fmt chunk, the expected channel count, a nonzero
`blockAlign` dividing the chunk size; reads the frames and the word-alignment
pad byte, and returns immediately. -/
def handleDataWith (sel : ℕ → ℕ → Option (List Byte → Option (GoFloat × List Byte)))
    (expected : ℕ) (fmt? : Option WavFmt) (chunkSize : ℕ) (bs : List Byte) :
    Option AudioData :=
  match fmt? with
  | none => none
  | some f =>
    if f.numChannels ≠ expected then none
    else if f.blockAlign = 0 then none
    else if chunkSize % f.blockAlign ≠ 0 then none
    else
      match sel f.audioFormat f.bitsPerSample with
      | none => none
      | some rd =>
        match readFrames rd (chunkSize / f.blockAlign) expected bs with
        | none => none
        | some (frames, rest) =>
          if chunkSize % 2 = 1 then
            match rest with
            | [] => none
            | _ :: _ =>
              some ⟨f.sampleRate, deinterleave expected frames,
                ((chunkSize / f.blockAlign : ℕ) : ℤ)⟩
          else
            some ⟨f.sampleRate, deinterleave expected frames,
              ((chunkSize / f.blockAlign : ℕ) : ℤ)⟩

/-- The chunk loop of the current `readWAV` (src/internal/wav/wav.go lines
326-474), with explicit fuel: one unit per loop iteration.  Each iteration
consumes at least 8 bytes, so fuel equal to the stream length never runs out
before the stream does (see `readChunks_congr`). -/
def readChunks (expected : ℕ) : ℕ → List Byte → Option WavFmt → Option AudioData
  | 0, _, _ => none
  | fuel + 1, bs, fmt? =>
    match takeExact 4 bs with
    | none => none
    | some (cid, bs₁) =>
      match readU32 bs₁ with
      | none => none
      | some (sz, bs₂) =>
        if cid = fmtID then
          match parseFmt sz bs₂ with
          | none => none
          | some (f, bs₃) => readChunks expected fuel bs₃ (some f)
        else if cid = dataID then
          handleDataWith sampleReader expected fmt? sz bs₂
        else
          match takeExact sz bs₂ with
          | none => none
          | some (_, bs₃) =>
            if sz % 2 = 1 then
              match bs₃ with
              | [] => none
              | _ :: bs₄ => readChunks expected fuel bs₄ fmt?
            else readChunks expected fuel bs₃ fmt?

/-- The chunk loop of the older `readWAV` revision (src/unnamed/part_000):
identical except for the data-chunk sample reader selection. -/
def readChunksOld (expected : ℕ) : ℕ → List Byte → Option WavFmt → Option AudioData
  | 0, _, _ => none
  | fuel + 1, bs, fmt? =>
    match takeExact 4 bs with
    | none => none
    | some (cid, bs₁) =>
      match readU32 bs₁ with
      | none => none
      | some (sz, bs₂) =>
        if cid = fmtID then
          match parseFmt sz bs₂ with
          | none => none
          | some (f, bs₃) => readChunksOld expected fuel bs₃ (some f)
        else if cid = dataID then
          handleDataWith sampleReaderOld expected fmt? sz bs₂
        else
          match takeExact sz bs₂ with
          | none => none
          | some (_, bs₃) =>
            if sz % 2 = 1 then
              match bs₃ with
              | [] => none
              | _ :: bs₄ => readChunksOld expected fuel bs₄ fmt?
            else readChunksOld expected fuel bs₃ fmt?

/-- Observer mirroring the chunk loop: the (audioFormat, bitsPerSample) pair
of the fmt chunk in effect at the moment a data chunk is found, `none` when
the walk fails or no data chunk is reached with a fmt chunk in hand. -/
def dataFmtAt : ℕ → List Byte → Option WavFmt → Option (ℕ × ℕ)
  | 0, _, _ => none
  | fuel + 1, bs, fmt? =>
    match takeExact 4 bs with
    | none => none
    | some (cid, bs₁) =>
      match readU32 bs₁ with
      | none => none
      | some (sz, bs₂) =>
        if cid = fmtID then
          match parseFmt sz bs₂ with
          | none => none
          | some (f, bs₃) => dataFmtAt fuel bs₃ (some f)
        else if cid = dataID then
          match fmt? with
          | none => none
          | some f => some (f.audioFormat, f.bitsPerSample)
        else
          match takeExact sz bs₂ with
          | none => none
          | some (_, bs₃) =>
            if sz % 2 = 1 then
              match bs₃ with
              | [] => none
              | _ :: bs₄ => dataFmtAt fuel bs₄ fmt?
            else dataFmtAt fuel bs₃ fmt?

/-- The RIFF/WAVE header parse shared by both `readWAV` revisions: the RIFF
tag, a (discarded) file size, the WAVE tag; returns the chunk stream. -/
def parseRiffHeader (bs : List Byte) : Option (List Byte) :=
  match takeExact 4 bs with
  | none => none
  | some (riff, bs₁) =>
    if riff ≠ riffID then none
    else match readU32 bs₁ with
    | none => none
    | some (_, bs₂) =>
      match takeExact 4 bs₂ with
      | none => none
      | some (wave, bs₃) => if wave ≠ waveID then none else some bs₃

/-- Embeds the current `readWAV` (src/internal/wav/wav.go lines 302-475). -/
def readWAV (bs : List Byte) (expectedChannels : ℕ) : Option AudioData :=
  match parseRiffHeader bs with
  | none => none
  | some rest => readChunks expectedChannels rest.length rest none

/-- Embeds the older `readWAV` revision (src/unnamed/part_000 lines 257-418). -/
def readWAVOld (bs : List Byte) (expectedChannels : ℕ) : Option AudioData :=
  match parseRiffHeader bs with
  | none => none
  | some rest => readChunksOld expectedChannels rest.length rest none

/-- The (audioFormat, bitsPerSample) pair of the data chunk a given WAV
stream leads the chunk walk to, when any. -/
def dataFormat (bs : List Byte) : Option (ℕ × ℕ) :=
  match parseRiffHeader bs with
  | none => none
  | some rest => dataFmtAt rest.length rest none

/-- The interleaved PCM16 sample payload of the write path: frame-major,
channel-minor, each sample through `floatToPCM16`. -/
def pcm16Payload (samples : List (List GoFloat)) (channels n : ℕ) : List Byte :=
  (List.range n).flatMap (fun i =>
    (List.range channels).flatMap (fun ch =>
      int16le (floatToPCM16 ((samples.getD ch []).getD i (.finite 0)))))

/-- Embeds `writeWAVPCM16ToWriter` (src/internal/wav/wav.go lines 80-161):
shape validation, RIFF/WAVE header, 16-byte fmt chunk, data chunk with the
interleaved PCM16 payload.  `uint16`/`uint32` header fields wrap as in Go
(`u16le`/`u32le` truncate). -/
def writeWAVPCM16Bytes (data : AudioData) (channels : ℕ) : Option (List Byte) :=
  if data.samples.length ≠ channels then none
  else if data.numSamples < 0 then none
  else if data.samples.any (fun chs => (chs.length : ℤ) < data.numSamples) then none
  else
    let n := data.numSamples.toNat
    let numChannelsW := channels % 65536
    let blockAlign := numChannelsW * 2 % 65536
    let byteRate := data.sampleRate * blockAlign
    let dataSize := (n % 4294967296) * blockAlign % 4294967296
    some (riffID ++ u32le (36 + dataSize) ++ waveID
      ++ fmtID ++ u32le 16 ++ u16le 1 ++ u16le numChannelsW
      ++ u32le data.sampleRate ++ u32le byteRate ++ u16le blockAlign ++ u16le 16
      ++ dataID ++ u32le dataSize
      ++ pcm16Payload data.samples channels n)

/-- The stereo round-trip input of TestReadWAVChannels_StereoRoundTrip
(src/internal/wav/wav_test.go lines 15-22), with the float64 literals read as
exact rationals. -/
def stereoTestData : AudioData :=
  ⟨44100,
   [[.finite 0, .finite (1 / 2), .finite (-1 / 2), .finite 1, .finite (-1),
     .finite (1 / 4), .finite (-1 / 4)],
    [.finite (1 / 10), .finite (-1 / 10), .finite (9 / 10), .finite (-9 / 10),
     .finite 0, .finite (3 / 4), .finite (-3 / 4)]],
   7⟩

namespace SQModel

/-!
Modelled from the spec: the SQ encoder and decoder sources
(`internal/encoder`, `internal/decoder`) are not under src/ — only their
round-trip test is.  The model below follows spec §4.B-§4.D and the test's
alignment comment ("Both encoder and decoder use inputOffset=overlap/4 when
mapping samples"): each stage's aligned path maps output sample `n` to input
sample `n + overlap/4`, and the per-channel Hilbert-shifted stream is an
explicit function argument `H`, constrained in the theorems only by the
property the spec forces of the ideal Hilbert transform where it is used.
-/

/-- Modelled from the spec: the matrix scalar c = √2/2 (§3, glossary). -/
noncomputable def sqc : ℝ := Real.sqrt 2 / 2

/-- Modelled from the spec: `input_offset` δ = overlap/4 (§3, HilbertState). -/
def inputOffset (overlap : ℕ) : ℕ := overlap / 4

/-- Modelled from the spec: a processor stage's aligned (delayed-original)
stream, mapping output sample `n` to input sample `n + overlap/4` per the
round-trip test's convention. -/
def alignedPath (overlap : ℕ) (x : ℕ → ℝ) : ℕ → ℝ := fun n => x (n + inputOffset overlap)

/-- Modelled from the spec: the SQ encode matrix (§4.C),
`LT = LF' + c·RB' − c·H{LB}`, `RT = RF' + c·LB' + c·H{RB}`, applied to the
aligned streams of a processor constructed with (blockSize, overlap). -/
noncomputable def sqEncode (_blockSize overlap : ℕ) (H : (ℕ → ℝ) → ℕ → ℝ)
    (inp : Fin 4 → ℕ → ℝ) : Fin 2 → ℕ → ℝ :=
  fun ch n =>
    if ch = 0 then
      alignedPath overlap (inp 0) n + sqc * alignedPath overlap (inp 3) n - sqc * H (inp 2) n
    else
      alignedPath overlap (inp 1) n + sqc * alignedPath overlap (inp 2) n + sqc * H (inp 3) n

/-- Modelled from the spec: the SQ decode matrix (§4.D), `LF = LT'`,
`RF = RT'`, `LB = c·H{LT} − c·RT'`, `RB = c·LT' − c·H{RT}`. -/
noncomputable def sqDecode (_blockSize overlap : ℕ) (H : (ℕ → ℝ) → ℕ → ℝ)
    (inp : Fin 2 → ℕ → ℝ) : Fin 4 → ℕ → ℝ :=
  fun ch n =>
    if ch = 0 then alignedPath overlap (inp 0) n
    else if ch = 1 then alignedPath overlap (inp 1) n
    else if ch = 2 then sqc * H (inp 0) n - sqc * alignedPath overlap (inp 1) n
    else sqc * alignedPath overlap (inp 0) n - sqc * H (inp 1) n

/-- The test's LF input signal, lf[i] = 0.6·sin(2π·i/97). -/
noncomputable def lfTest : ℕ → ℝ := fun i => 0.6 * Real.sin (2 * Real.pi * i / 97)

/-- The test's RF input signal, rf[i] = 0.4·cos(2π·i/131). -/
noncomputable def rfTest : ℕ → ℝ := fun i => 0.4 * Real.cos (2 * Real.pi * i / 131)

/-- The front-only quad input [lf, rf, 0, 0] of the round-trip test. -/
noncomputable def quadTest : Fin 4 → ℕ → ℝ :=
  fun ch => if ch = 0 then lfTest else if ch = 1 then rfTest else fun _ => 0

end SQModel

/-- The chunk loop run with fuel equal to the stream length, which never
runs out before the stream does. -/
def runChunks (e : ℕ) (bs : List Byte) (st : Option WavFmt) : Option AudioData :=
  readChunks e bs.length bs st

/-- The 12-byte RIFF/WAVE preamble with a given declared file size. -/
def riffWaveHeader (riffSize : ℕ) : List Byte := riffID ++ u32le riffSize ++ waveID

/-- The 16 bytes of the six fmt-chunk fields, in wire order. -/
def fmtFieldBytes (f : WavFmt) : List Byte :=
  u16le f.audioFormat ++ u16le f.numChannels ++ u32le f.sampleRate ++
    u32le f.byteRate ++ u16le f.blockAlign ++ u16le f.bitsPerSample

/-- A complete fmt chunk: id, declared size 16 + extension, fields, extension. -/
def fmtChunkBytes (f : WavFmt) (extra : List Byte) : List Byte :=
  fmtID ++ u32le (16 + extra.length) ++ fmtFieldBytes f ++ extra

/-- All six fmt fields fit their wire widths (uint16 / uint32). -/
def WavFmt.inRange (f : WavFmt) : Prop :=
  f.audioFormat < 65536 ∧ f.numChannels < 65536 ∧ f.sampleRate < 4294967296 ∧
    f.byteRate < 4294967296 ∧ f.blockAlign < 65536 ∧ f.bitsPerSample < 65536

/-- An unknown chunk as it appears on the wire: a 4-byte id that is neither
fmt nor data, a body, and the word-alignment pad byte when the body's
length is odd. -/
structure JunkChunk where
  cid : List Byte
  body : List Byte
  pad : List Byte

/-- Well-formedness of an unknown chunk's wire encoding. -/
def JunkChunk.wf (j : JunkChunk) : Prop :=
  j.cid.length = 4 ∧ j.cid ≠ fmtID ∧ j.cid ≠ dataID ∧ j.body.length < 4294967296 ∧
    j.pad.length = (if j.body.length % 2 = 1 then 1 else 0)

/-- The wire bytes of an unknown chunk. -/
def JunkChunk.bytes (j : JunkChunk) : List Byte :=
  j.cid ++ u32le j.body.length ++ j.body ++ j.pad

/-- The concatenated wire bytes of a list of unknown chunks. -/
def chunksBytes (js : List JunkChunk) : List Byte := js.flatMap JunkChunk.bytes

/-- The channel-mismatch test input (src/internal/wav/wav_test.go lines
61-68): four zero samples on two channels. -/
def mismatchTestData : AudioData :=
  ⟨44100,
   [[.finite 0, .finite 0, .finite 0, .finite 0],
    [.finite 0, .finite 0, .finite 0, .finite 0]],
   4⟩

/-- A stereo PCM16 fmt description (blockAlign 4, 16 bits). -/
def stereoPcm16Fmt : WavFmt := ⟨1, 2, 44100, 176400, 4, 16⟩

/-- A WAV file with unknown chunks (one odd-sized, forcing a pad byte)
before the fmt chunk and between the fmt and data chunks. -/
def chunkOrderOkFile : List Byte :=
  riffWaveHeader 0 ++
    JunkChunk.bytes ⟨[byte 76, byte 73, byte 83, byte 84], [byte 7], [byte 0]⟩ ++
    fmtChunkBytes stereoPcm16Fmt [] ++
    JunkChunk.bytes ⟨[byte 99, byte 117, byte 101, byte 32], [], []⟩ ++
    dataID ++ u32le 4 ++ [byte 1, byte 0, byte 2, byte 0]

/-- A WAV file whose (supported, matching) data chunk precedes its fmt
chunk: both chunks are present, but `readWAV` rejects it. -/
def dataBeforeFmtFile : List Byte :=
  riffWaveHeader 36 ++
    dataID ++ u32le 4 ++ [byte 0, byte 0, byte 0, byte 0] ++
    fmtChunkBytes stereoPcm16Fmt []

/-- A mono PCM24 WAV file holding the single sample 0x800000 = −8388608. -/
def pcm24File : List Byte :=
  riffWaveHeader 100 ++
    fmtChunkBytes ⟨1, 1, 48000, 144000, 3, 24⟩ [] ++
    dataID ++ u32le 3 ++ [byte 0, byte 0, byte 128] ++ [byte 0]

/-- A stereo PCM24 WAV file (one frame, six data bytes). -/
def pcm24StereoFile : List Byte :=
  riffWaveHeader 100 ++
    fmtChunkBytes ⟨1, 2, 48000, 288000, 6, 24⟩ [] ++
    dataID ++ u32le 6 ++ [byte 0, byte 0, byte 0, byte 0, byte 0, byte 0]

/-- Pointwise tolerance check on two sample lists: equal length, all values
finite, and each pair within `tol` of each other. -/
def closeLists (tol : ℚ) : List GoFloat → List GoFloat → Bool
  | [], [] => true
  | .finite x :: xs, .finite y :: ys => decide (|x - y| ≤ tol) && closeLists tol xs ys
  | _, _ => false

/-- Channel-wise tolerance check: equal channel count, channels pairwise
within `tol`. -/
def closeChannels (tol : ℚ) : List (List GoFloat) → List (List GoFloat) → Bool
  | [], [] => true
  | a :: as, b :: bs => closeLists tol a b && closeChannels tol as bs
  | _, _ => false

/-- A sample value that is finite and lies in [-1, 1]. -/
def inUnit (g : GoFloat) : Prop := ∃ q : ℚ, g = .finite q ∧ -1 ≤ q ∧ q ≤ 1

/-- Bridge from Batteries' computable `Rat.floor` to Mathlib's `⌊⌋`. -/
theorem ratFloor_eq_intFloor (q : ℚ) : q.floor = ⌊q⌋ :=
  (Rat.floor_def' q).trans Rat.floor_def.symm

/-- `goRound` as floor/ceiling of the shifted value. -/
theorem goRound_eq (x : ℚ) :
    goRound x = if 0 ≤ x then ⌊x + 1 / 2⌋ else -⌊1 / 2 - x⌋ := by
  unfold goRound
  split <;> rw [ratFloor_eq_intFloor]

/-- `goRound` lands within a half of its argument. -/
theorem goRound_half (x : ℚ) : |x - (goRound x : ℚ)| ≤ 1 / 2 := by
  rw [goRound_eq]
  split
  · set r := ⌊x + 1 / 2⌋ with hr
    have h₁ : (r : ℚ) ≤ x + 1 / 2 := Int.floor_le _
    have h₂ : x + 1 / 2 < r + 1 := Int.lt_floor_add_one _
    rw [abs_le]
    constructor <;> linarith
  · set r := ⌊1 / 2 - x⌋ with hr
    have h₁ : (r : ℚ) ≤ 1 / 2 - x := Int.floor_le _
    have h₂ : 1 / 2 - x < r + 1 := Int.lt_floor_add_one _
    rw [abs_le]
    push_cast
    constructor <;> linarith

/-- `goRound` is at least as close to its argument as any integer. -/
theorem goRound_nearest (x : ℚ) (m : ℤ) : |x - (goRound x : ℚ)| ≤ |x - (m : ℚ)| := by
  rcases eq_or_ne m (goRound x) with h | h
  · rw [h]
  · have hhalf := goRound_half x
    have hfar : (1 : ℚ) ≤ |(goRound x : ℚ) - (m : ℚ)| := by
      have : goRound x - m ≠ 0 := sub_ne_zero.mpr (Ne.symm h)
      have h1 : 1 ≤ |goRound x - m| := Int.one_le_abs this
      calc (1 : ℚ) = ((1 : ℤ) : ℚ) := by norm_num
        _ ≤ ((|goRound x - m| : ℤ) : ℚ) := by exact_mod_cast h1
        _ = |(goRound x : ℚ) - (m : ℚ)| := by push_cast; ring
    have htri : |(goRound x : ℚ) - (m : ℚ)| ≤ |x - (goRound x : ℚ)| + |x - (m : ℚ)| := by
      calc |(goRound x : ℚ) - (m : ℚ)|
          = |((goRound x : ℚ) - x) + (x - (m : ℚ))| := by ring_nf
        _ ≤ |(goRound x : ℚ) - x| + |x - (m : ℚ)| := abs_add _ _
        _ = |x - (goRound x : ℚ)| + |x - (m : ℚ)| := by rw [abs_sub_comm]
    linarith

/-- At an exact half-integer, `goRound` picks the value away from zero. -/
theorem goRound_tie (k : ℤ) (x : ℚ) (hx : x = (k : ℚ) + 1 / 2) :
    goRound x = if 0 ≤ x then k + 1 else k := by
  rw [goRound_eq, hx]
  split
  · have : (k : ℚ) + 1 / 2 + 1 / 2 = ((k + 1 : ℤ) : ℚ) := by push_cast; ring
    rw [this, Int.floor_intCast]
  · have : (1 : ℚ) / 2 - ((k : ℚ) + 1 / 2) = ((-k : ℤ) : ℚ) := by push_cast; ring
    rw [this, Int.floor_intCast, neg_neg]

/-- C1: for the SQ encoder and decoder constructed with block size 1024 and
overlap 512 and the front-only quad input [lf, rf, 0, 0] with
lf[i] = 0.6·sin(2π·i/97) and rf[i] = 0.4·cos(2π·i/131), the round trip
reproduces the fronts shifted by 256 samples: for every i < 5120 − 256,
|out[0][i] − lf[i+256]| ≤ 1e−12 and |out[1][i] − rf[i+256]| ≤ 1e−12.
The model is spec-derived (the encoder/decoder sources are not in src/);
the Hilbert-shifted streams are arbitrary functions, the encoder's one
constrained only to carry the zero signal to zero. -/
theorem sq_front_roundtrip_fidelity
    (Henc Hdec : (ℕ → ℝ) → ℕ → ℝ)
    (henc : ∀ n, Henc (fun _ => 0) n = 0)
    (i : ℕ) (_hi : i < 5120 - 256) :
    |SQModel.sqDecode 1024 512 Hdec (SQModel.sqEncode 1024 512 Henc SQModel.quadTest) 0 i
      - SQModel.lfTest (i + 256)| ≤ 1e-12 ∧
    |SQModel.sqDecode 1024 512 Hdec (SQModel.sqEncode 1024 512 Henc SQModel.quadTest) 1 i
      - SQModel.rfTest (i + 256)| ≤ 1e-12 := by
  have hq2 : SQModel.quadTest 2 = fun _ => 0 := rfl
  have hq3 : SQModel.quadTest 3 = fun _ => 0 := rfl
  constructor
  · have : SQModel.sqDecode 1024 512 Hdec (SQModel.sqEncode 1024 512 Henc SQModel.quadTest) 0 i
        = SQModel.lfTest (i + 256) := by
      show SQModel.sqEncode 1024 512 Henc SQModel.quadTest 0 (i + 128) = SQModel.lfTest (i + 256)
      show SQModel.lfTest (i + 128 + 128) + SQModel.sqc * (0 : ℝ)
          - SQModel.sqc * Henc (SQModel.quadTest 2) (i + 128) = SQModel.lfTest (i + 256)
      rw [hq2, henc]
      ring_nf
    rw [this, sub_self, abs_zero]
    norm_num
  · have : SQModel.sqDecode 1024 512 Hdec (SQModel.sqEncode 1024 512 Henc SQModel.quadTest) 1 i
        = SQModel.rfTest (i + 256) := by
      show SQModel.sqEncode 1024 512 Henc SQModel.quadTest 1 (i + 128) = SQModel.rfTest (i + 256)
      show SQModel.rfTest (i + 128 + 128) + SQModel.sqc * (0 : ℝ)
          + SQModel.sqc * Henc (SQModel.quadTest 3) (i + 128) = SQModel.rfTest (i + 256)
      rw [hq3, henc]
      ring_nf
    rw [this, sub_self, abs_zero]
    norm_num

/-- Witness for C1: the round-trip theorem applied at the zero Hilbert
functions and i = 0. -/
theorem sq_front_roundtrip_fidelity_witness :
    (∀ n : ℕ, (fun _ : ℕ => (0 : ℝ)) n = 0) ∧ (0 : ℕ) < 5120 - 256 ∧
    (|SQModel.sqDecode 1024 512 (fun _ _ => 0)
        (SQModel.sqEncode 1024 512 (fun _ _ => 0) SQModel.quadTest) 0 0
      - SQModel.lfTest (0 + 256)| ≤ 1e-12 ∧
     |SQModel.sqDecode 1024 512 (fun _ _ => 0)
        (SQModel.sqEncode 1024 512 (fun _ _ => 0) SQModel.quadTest) 1 0
      - SQModel.rfTest (0 + 256)| ≤ 1e-12) :=
  ⟨fun _ => rfl, by norm_num,
   sq_front_roundtrip_fidelity (fun _ _ => 0) (fun _ _ => 0) (fun _ => rfl) 0 (by norm_num)⟩

/-- C3 (code bug in the float32 write path): the clamp runs `val > 1.0` and
`val < -1.0` before the NaN/±∞ check, so +∞ is written as 1.0 and −∞ as
−1.0 — not as 0 as the spec states; only NaN reaches the zeroing branch.
This theorem evaluates the embedded write-path transformation at the
failing inputs. -/
theorem writeFloat32_clamp_eval :
    clampForFloat32Write (.inf true) = .finite 1 ∧
    clampForFloat32Write (.inf false) = .finite (-1) ∧
    clampForFloat32Write .nan = .finite 0 ∧
    clampForFloat32Write (.finite 2) = .finite 1 ∧
    clampForFloat32Write (.finite (-3 / 2)) = .finite (-1) ∧
    clampForFloat32Write (.finite (1 / 2)) = .finite (1 / 2) := by
  decide

/-- C4: `floatToPCM16` maps NaN and the infinities to 0, saturates finite
values at ±1.0 to 32767 / −32768, and maps every other finite value to the
integer nearest v·32767, ties resolved half away from zero (one of the two
resolutions the spec permits). -/
theorem floatToPCM16_spec :
    floatToPCM16 .nan = 0 ∧
    (∀ b : Bool, floatToPCM16 (.inf b) = 0) ∧
    (∀ q : ℚ, 1 ≤ q → floatToPCM16 (.finite q) = 32767) ∧
    (∀ q : ℚ, q ≤ -1 → floatToPCM16 (.finite q) = -32768) ∧
    (∀ q : ℚ, -1 < q → q < 1 →
      (∀ m : ℤ, |q * 32767 - (floatToPCM16 (.finite q) : ℚ)| ≤ |q * 32767 - (m : ℚ)|) ∧
      (∀ k : ℤ, q * 32767 = (k : ℚ) + 1 / 2 →
        floatToPCM16 (.finite q) = if 0 ≤ q then k + 1 else k)) := by
  refine ⟨by decide, by decide, ?_, ?_, ?_⟩
  · intro q hq
    simp [floatToPCM16, hq]
  · intro q hq
    have h1 : ¬ (1 : ℚ) ≤ q := by linarith
    simp [floatToPCM16, h1, hq]
  · intro q hlo hhi
    have h1 : ¬ (1 : ℚ) ≤ q := by linarith
    have h2 : ¬ q ≤ (-1 : ℚ) := by linarith
    have hval : floatToPCM16 (.finite q) = goRound (q * 32767) := by
      simp [floatToPCM16, h1, h2]
    constructor
    · intro m
      rw [hval]
      exact goRound_nearest (q * 32767) m
    · intro k hk
      rw [hval, goRound_tie k _ hk]
      have hsgn : (0 ≤ q * 32767) ↔ (0 ≤ q) := by
        constructor <;> intro h <;> nlinarith
      by_cases hq0 : 0 ≤ q
      · rw [if_pos (hsgn.mpr hq0), if_pos hq0]
      · rw [if_neg (fun h => hq0 (hsgn.mp h)), if_neg hq0]

/-- Witness for C4: the saturation and rounding branches at concrete inputs,
including the tie q·32767 = 1/2 at q = 1/65534. -/
theorem floatToPCM16_spec_witness :
    ((1 : ℚ) ≤ 3 / 2 ∧ floatToPCM16 (.finite (3 / 2)) = 32767) ∧
    ((-1 : ℚ) < 1 / 65534 ∧ (1 / 65534 : ℚ) < 1 ∧
      (1 / 65534 : ℚ) * 32767 = ((0 : ℤ) : ℚ) + 1 / 2 ∧
      floatToPCM16 (.finite (1 / 65534)) = if (0 : ℚ) ≤ 1 / 65534 then (0 : ℤ) + 1 else 0) :=
  ⟨⟨by norm_num, floatToPCM16_spec.2.2.1 (3 / 2) (by norm_num)⟩,
   ⟨by norm_num, by norm_num, by norm_num,
    (floatToPCM16_spec.2.2.2.2 (1 / 65534) (by norm_num) (by norm_num)).2 0 (by norm_num)⟩⟩

/-- C5: the PCM16 read path divides the signed 16-bit value by 32768.0, so
−32768 maps to exactly −1.0; the write path multiplies by 32767.0 with
saturation, so 1.0 maps to exactly 32767. -/
theorem pcm16_boundary_conventions :
    (∀ (b0 b1 : Byte) (rest : List Byte),
      readSample16 (b0 :: b1 :: rest) =
        some (.finite ((toInt16 (u16val b0 b1) : ℚ) / 32768), rest)) ∧
    readSample16 [byte 0, byte 128] = some (.finite (-1), []) ∧
    (∀ q : ℚ, 1 ≤ q → floatToPCM16 (.finite q) = 32767) ∧
    floatToPCM16 (.finite 1) = 32767 ∧
    (∀ q : ℚ, -1 < q → q < 1 → floatToPCM16 (.finite q) = goRound (q * 32767)) := by
  refine ⟨fun b0 b1 rest => rfl, by decide, ?_, by decide, ?_⟩
  · intro q hq
    simp [floatToPCM16, hq]
  · intro q hlo hhi
    have h1 : ¬ (1 : ℚ) ≤ q := by linarith
    have h2 : ¬ q ≤ (-1 : ℚ) := by linarith
    simp [floatToPCM16, h1, h2]

/-- Witness for C5: the saturating write branch at q = 2. -/
theorem pcm16_boundary_conventions_witness :
    (1 : ℚ) ≤ 2 ∧ floatToPCM16 (.finite 2) = 32767 :=
  ⟨by norm_num, pcm16_boundary_conventions.2.2.1 2 (by norm_num)⟩

/-- C2: writing the stereo test frame (44100 Hz, 7 samples) as PCM16 and
reading the bytes back with requested channel count 2 succeeds, and yields
sample rate 44100, exactly 2 channels, 7 samples, every sample within
2/32767 of the corresponding input sample. -/
theorem stereo_pcm16_roundtrip :
    ((writeWAVPCM16Bytes stereoTestData 2).bind (fun bs => readWAV bs 2)).map
        (fun out => (out.sampleRate, out.samples.length, out.numSamples,
          closeChannels (2 / 32767) out.samples stereoTestData.samples))
      = some (44100, 2, 7, true) := by
  decide

theorem takeExact_some {n : ℕ} {bs l rest : List Byte}
    (h : takeExact n bs = some (l, rest)) :
    l = bs.take n ∧ rest = bs.drop n ∧ n ≤ bs.length := by
  unfold takeExact at h
  split at h
  · rename_i hle
    simp only [Option.some.injEq, Prod.mk.injEq] at h
    exact ⟨h.1.symm, h.2.symm, hle⟩
  · exact absurd h (by simp)

theorem takeExact_append {n : ℕ} {l : List Byte} (h : l.length = n) (rest : List Byte) :
    takeExact n (l ++ rest) = some (l, rest) := by
  subst h
  unfold takeExact
  rw [if_pos (by simp)]
  rw [List.take_left, List.drop_left]

theorem readU16_some_len {bs : List Byte} {v : ℕ} {rest : List Byte}
    (h : readU16 bs = some (v, rest)) : rest.length + 2 = bs.length := by
  rcases bs with _ | ⟨b0, _ | ⟨b1, t⟩⟩ <;>
    simp only [readU16, Option.some.injEq, Prod.mk.injEq, reduceCtorEq] at h
  obtain ⟨-, rfl⟩ := h
  simp

theorem readU32_some_len {bs : List Byte} {v : ℕ} {rest : List Byte}
    (h : readU32 bs = some (v, rest)) : rest.length + 4 = bs.length := by
  rcases bs with _ | ⟨b0, _ | ⟨b1, _ | ⟨b2, _ | ⟨b3, t⟩⟩⟩⟩ <;>
    simp only [readU32, Option.some.injEq, Prod.mk.injEq, reduceCtorEq] at h
  obtain ⟨-, rfl⟩ := h
  simp

theorem readU16_u16le (n : ℕ) (rest : List Byte) :
    readU16 (u16le n ++ rest) = some (n % 65536, rest) := by
  show some (u16val (byte n) (byte (n / 256)), rest) = some (n % 65536, rest)
  have : u16val (byte n) (byte (n / 256)) = n % 65536 := by
    show n % 256 + 256 * (n / 256 % 256) = n % 65536
    omega
  rw [this]

theorem readU32_u32le (n : ℕ) (rest : List Byte) :
    readU32 (u32le n ++ rest) = some (n % 4294967296, rest) := by
  show some (u32val (byte n) (byte (n / 256)) (byte (n / 65536)) (byte (n / 16777216)), rest)
      = some (n % 4294967296, rest)
  have : u32val (byte n) (byte (n / 256)) (byte (n / 65536)) (byte (n / 16777216))
      = n % 4294967296 := by
    show n % 256 + 256 * (n / 256 % 256) + 65536 * (n / 65536 % 256)
        + 16777216 * (n / 16777216 % 256) = n % 4294967296
    omega
  rw [this]

theorem parseFmt_some_len {sz : ℕ} {bs : List Byte} {f : WavFmt} {rest : List Byte}
    (h : parseFmt sz bs = some (f, rest)) : rest.length + 16 ≤ bs.length := by
  unfold parseFmt at h
  split at h
  · exact absurd h (by simp)
  split at h
  · exact absurd h (by simp)
  rename_i af bs₁ h1
  split at h
  · exact absurd h (by simp)
  rename_i nc bs₂ h2
  split at h
  · exact absurd h (by simp)
  rename_i sr bs₃ h3
  split at h
  · exact absurd h (by simp)
  rename_i br bs₄ h4
  split at h
  · exact absurd h (by simp)
  rename_i ba bs₅ h5
  split at h
  · exact absurd h (by simp)
  rename_i bps bs₆ h6
  split at h
  · simp only [Option.some.injEq, Prod.mk.injEq] at h
    obtain ⟨-, rfl⟩ := h
    have l1 := readU16_some_len h1
    have l2 := readU16_some_len h2
    have l3 := readU32_some_len h3
    have l4 := readU32_some_len h4
    have l5 := readU16_some_len h5
    have l6 := readU16_some_len h6
    have : (bs₆.drop (sz - 16)).length ≤ bs₆.length := by simp
    omega
  · exact absurd h (by simp)

theorem parseFmt_roundtrip (f : WavFmt) (hf : f.inRange) (extra rest : List Byte) :
    parseFmt (16 + extra.length) (fmtFieldBytes f ++ (extra ++ rest)) = some (f, rest) := by
  obtain ⟨h1, h2, h3, h4, h5, h6⟩ := hf
  unfold parseFmt fmtFieldBytes
  rw [if_neg (by omega)]
  simp only [List.append_assoc]
  simp only [readU16_u16le, readU32_u32le, Nat.mod_eq_of_lt h1, Nat.mod_eq_of_lt h2,
    Nat.mod_eq_of_lt h3, Nat.mod_eq_of_lt h4, Nat.mod_eq_of_lt h5, Nat.mod_eq_of_lt h6]
  have hd : 16 + extra.length - 16 = extra.length := by omega
  rw [hd, if_pos (by simp), List.drop_left]

theorem readChunks_congr (e : ℕ) :
    ∀ f₁ f₂ bs st, bs.length ≤ f₁ → bs.length ≤ f₂ →
      readChunks e f₁ bs st = readChunks e f₂ bs st := by
  intro f₁
  induction f₁ with
  | zero =>
    intro f₂ bs st h1 h2
    have hbs : bs = [] := List.eq_nil_of_length_eq_zero (Nat.le_zero.mp h1)
    subst hbs
    cases f₂ with
    | zero => rfl
    | succ g => simp [readChunks, takeExact]
  | succ f ihf =>
    intro f₂ bs st h1 h2
    cases f₂ with
    | zero =>
      have hbs : bs = [] := List.eq_nil_of_length_eq_zero (Nat.le_zero.mp h2)
      subst hbs
      simp [readChunks, takeExact]
    | succ g =>
      simp only [readChunks]
      split
      · rfl
      rename_i cid bs₁ htake
      obtain ⟨-, hbs₁, hlen4⟩ := takeExact_some htake
      have hl₁ : bs₁.length = bs.length - 4 := by subst hbs₁; simp
      split
      · rfl
      rename_i sz bs₂ hu
      have hl₂ := readU32_some_len hu
      split
      · split
        · rfl
        rename_i fNew bs₃ hp
        have hl₃ := parseFmt_some_len hp
        exact ihf g bs₃ (some fNew) (by omega) (by omega)
      · split
        · rfl
        split
        · rfl
        rename_i skipped bs₃ hsk
        obtain ⟨-, hbs₃, hlsz⟩ := takeExact_some hsk
        have hl₃ : bs₃.length = bs₂.length - sz := by subst hbs₃; simp
        split
        · split
          · rfl
          rename_i hd tl
          have htl : tl.length + 1 = bs₂.length - sz := by simpa using hl₃
          exact ihf g tl st (by omega) (by omega)
        · exact ihf g bs₃ st (by omega) (by omega)

theorem riffID_len : riffID.length = 4 := rfl

theorem waveID_len : waveID.length = 4 := rfl

theorem fmtID_len : fmtID.length = 4 := rfl

theorem dataID_len : dataID.length = 4 := rfl

theorem dataID_ne_fmtID : dataID ≠ fmtID := by decide

theorem readChunks_skip (e fuel : ℕ) (cid : List Byte) (sz : ℕ) (body pad rest : List Byte)
    (st : Option WavFmt) (hcid : cid.length = 4) (hfmt : cid ≠ fmtID) (hdata : cid ≠ dataID)
    (hsz : sz < 4294967296) (hbody : body.length = sz)
    (hpad : pad.length = if sz % 2 = 1 then 1 else 0) :
    readChunks e (fuel + 1) (cid ++ u32le sz ++ body ++ pad ++ rest) st
      = readChunks e fuel rest st := by
  by_cases hodd : sz % 2 = 1
  · have hpad1 : pad.length = 1 := by rw [hpad, if_pos hodd]
    obtain ⟨p, hp⟩ : ∃ p, pad = [p] := by
      rcases pad with _ | ⟨p, _ | ⟨q, t⟩⟩ <;> simp at hpad1
      exact ⟨p, rfl⟩
    subst hp
    simp only [readChunks, List.append_assoc, takeExact_append hcid, readU32_u32le,
      Nat.mod_eq_of_lt hsz, if_neg hfmt, if_neg hdata, takeExact_append hbody,
      if_pos hodd, List.cons_append, List.nil_append]
  · have hpad0 : pad.length = 0 := by rw [hpad, if_neg hodd]
    have hnil : pad = [] := List.eq_nil_of_length_eq_zero hpad0
    subst hnil
    simp only [readChunks, List.append_assoc, takeExact_append hcid, readU32_u32le,
      Nat.mod_eq_of_lt hsz, if_neg hfmt, if_neg hdata, takeExact_append hbody,
      if_neg hodd, List.nil_append]

theorem runChunks_skip (e : ℕ) (j : JunkChunk) (rest : List Byte) (st : Option WavFmt)
    (hj : j.wf) :
    runChunks e (JunkChunk.bytes j ++ rest) st = runChunks e rest st := by
  obtain ⟨hcid, hfmt, hdata, hsz, hpad⟩ := hj
  show readChunks e (JunkChunk.bytes j ++ rest).length (JunkChunk.bytes j ++ rest) st
      = readChunks e rest.length rest st
  have hlen : (JunkChunk.bytes j ++ rest).length
      = rest.length + (8 + j.body.length + j.pad.length) := by
    simp [JunkChunk.bytes, u32le, hcid]
    omega
  obtain ⟨f, hf⟩ : ∃ f, (JunkChunk.bytes j ++ rest).length = f + 1 :=
    ⟨(JunkChunk.bytes j ++ rest).length - 1, by omega⟩
  rw [hf]
  unfold JunkChunk.bytes
  rw [readChunks_skip e f j.cid j.body.length j.body j.pad rest st hcid hfmt hdata hsz rfl hpad]
  exact readChunks_congr e f rest.length rest st (by omega) (by omega)

theorem runChunks_skip_list (e : ℕ) (js : List JunkChunk) (rest : List Byte)
    (st : Option WavFmt) (hjs : ∀ j ∈ js, j.wf) :
    runChunks e (chunksBytes js ++ rest) st = runChunks e rest st := by
  induction js with
  | nil => simp [chunksBytes]
  | cons j t ih =>
    have h1 : chunksBytes (j :: t) ++ rest = JunkChunk.bytes j ++ (chunksBytes t ++ rest) := by
      simp [chunksBytes]
    rw [h1, runChunks_skip e j _ st (hjs j (by simp))]
    exact ih (fun x hx => hjs x (by simp [hx]))

theorem runChunks_fmt (e : ℕ) (f : WavFmt) (hf : f.inRange) (extra rest : List Byte)
    (hx : 16 + extra.length < 4294967296) (st : Option WavFmt) :
    runChunks e (fmtChunkBytes f extra ++ rest) st = runChunks e rest (some f) := by
  show readChunks e (fmtChunkBytes f extra ++ rest).length (fmtChunkBytes f extra ++ rest) st
      = readChunks e rest.length rest (some f)
  have hlen : (fmtChunkBytes f extra ++ rest).length = rest.length + (24 + extra.length) := by
    simp [fmtChunkBytes, fmtFieldBytes, u16le, u32le, fmtID]
    omega
  obtain ⟨fuel, hfu⟩ : ∃ fu, (fmtChunkBytes f extra ++ rest).length = fu + 1 :=
    ⟨(fmtChunkBytes f extra ++ rest).length - 1, by omega⟩
  rw [hfu]
  unfold fmtChunkBytes
  simp only [readChunks, List.append_assoc, takeExact_append fmtID_len, readU32_u32le,
    Nat.mod_eq_of_lt hx, eq_self_iff_true, if_true, parseFmt_roundtrip f hf extra rest]
  exact readChunks_congr e fuel rest.length rest (some f) (by omega) (by omega)

theorem runChunks_data_mismatch (e sz : ℕ) (rest : List Byte) (f : WavFmt)
    (hne : f.numChannels ≠ e) (hsz : sz < 4294967296) :
    runChunks e (dataID ++ u32le sz ++ rest) (some f) = none := by
  show readChunks e (dataID ++ u32le sz ++ rest).length (dataID ++ u32le sz ++ rest) (some f)
      = none
  have hlen : (dataID ++ u32le sz ++ rest).length = rest.length + 8 := by
    simp [dataID, u32le]
  obtain ⟨fuel, hfu⟩ : ∃ fu, (dataID ++ u32le sz ++ rest).length = fu + 1 :=
    ⟨(dataID ++ u32le sz ++ rest).length - 1, by omega⟩
  rw [hfu]
  simp only [readChunks, List.append_assoc, takeExact_append dataID_len, readU32_u32le,
    Nat.mod_eq_of_lt hsz, if_neg dataID_ne_fmtID, eq_self_iff_true, if_true]
  simp only [handleDataWith, if_pos hne]

theorem runChunks_data_nofmt (e sz : ℕ) (rest : List Byte) (hsz : sz < 4294967296) :
    runChunks e (dataID ++ u32le sz ++ rest) none = none := by
  show readChunks e (dataID ++ u32le sz ++ rest).length (dataID ++ u32le sz ++ rest) none
      = none
  have hlen : (dataID ++ u32le sz ++ rest).length = rest.length + 8 := by
    simp [dataID, u32le]
  obtain ⟨fuel, hfu⟩ : ∃ fu, (dataID ++ u32le sz ++ rest).length = fu + 1 :=
    ⟨(dataID ++ u32le sz ++ rest).length - 1, by omega⟩
  rw [hfu]
  simp only [readChunks, List.append_assoc, takeExact_append dataID_len, readU32_u32le,
    Nat.mod_eq_of_lt hsz, if_neg dataID_ne_fmtID, eq_self_iff_true, if_true]
  simp only [handleDataWith]

theorem readWAV_append_header (riffSize e : ℕ) (body : List Byte) :
    readWAV (riffWaveHeader riffSize ++ body) e = runChunks e body none := by
  unfold readWAV parseRiffHeader riffWaveHeader runChunks
  simp only [List.append_assoc, takeExact_append riffID_len, readU32_u32le,
    takeExact_append waveID_len, ne_eq, eq_self_iff_true, not_true, if_false]

/-- C6 counterexample: this RIFF/WAVE file contains both a supported fmt
chunk (PCM16 stereo) and a matching data chunk, but the data chunk comes
first; `readWAV` rejects it ("data chunk before fmt chunk"), so success
does not hold regardless of where fmt appears relative to data. -/
theorem readWAV_dataBeforeFmt_fails : readWAV dataBeforeFmtFile 2 = none := by
  decide

/-- C6 (amended): `readWAV` accepts chunks in arbitrary order around the
fmt-before-data backbone, skipping every unknown chunk and consuming a pad
byte when its declared size is odd — but the fmt chunk must precede the
data chunk: a data chunk reached before any fmt chunk is an error. -/
theorem readWAV_chunk_skipping :
    (∀ (e : ℕ) (j : JunkChunk) (rest : List Byte) (st : Option WavFmt), j.wf →
      runChunks e (JunkChunk.bytes j ++ rest) st = runChunks e rest st) ∧
    (∀ (e sz : ℕ) (rest : List Byte), sz < 4294967296 →
      runChunks e (dataID ++ u32le sz ++ rest) none = none) ∧
    readWAV chunkOrderOkFile 2
      = some ⟨44100, [[.finite (1 / 32768)], [.finite (1 / 16384)]], 1⟩ :=
  ⟨fun e j rest st hj => runChunks_skip e j rest st hj,
   fun e sz rest hsz => runChunks_data_nofmt e sz rest hsz,
   by decide⟩

/-- Witness for C6: the skip equation at a concrete odd-sized LIST chunk
and the data-before-fmt error at a concrete empty data chunk. -/
theorem readWAV_chunk_skipping_witness :
    JunkChunk.wf ⟨[byte 76, byte 73, byte 83, byte 84], [byte 7], [byte 0]⟩ ∧
    runChunks 2 (JunkChunk.bytes ⟨[byte 76, byte 73, byte 83, byte 84], [byte 7], [byte 0]⟩ ++ [])
        none
      = runChunks 2 [] none ∧
    runChunks 2 (dataID ++ u32le 4 ++ []) none = none :=
  ⟨⟨by decide, by decide, by decide, by decide, by decide⟩,
   readWAV_chunk_skipping.1 2 ⟨[byte 76, byte 73, byte 83, byte 84], [byte 7], [byte 0]⟩ [] none
     ⟨by decide, by decide, by decide, by decide, by decide⟩,
   readWAV_chunk_skipping.2.1 2 4 [] (by decide)⟩

/-- C7: a well-formed WAV file — unknown chunks, one fmt chunk, then a data
chunk — whose fmt declares a channel count different from the requested one
is rejected whatever the data chunk holds; in particular writing the
2-channel test frame and reading it back with requested count 4 fails. -/
theorem readWAV_channel_mismatch :
    (∀ (riffSize e : ℕ) (js₁ js₂ : List JunkChunk) (f : WavFmt) (extra : List Byte)
      (sz : ℕ) (rest : List Byte),
      (∀ j ∈ js₁, j.wf) → (∀ j ∈ js₂, j.wf) → f.inRange → 16 + extra.length < 4294967296 →
      sz < 4294967296 → f.numChannels ≠ e →
      readWAV (riffWaveHeader riffSize ++ (chunksBytes js₁ ++ (fmtChunkBytes f extra ++
        (chunksBytes js₂ ++ (dataID ++ u32le sz ++ rest))))) e = none) ∧
    (writeWAVPCM16Bytes mismatchTestData 2).bind (fun bs => readWAV bs 4) = none ∧
    (writeWAVPCM16Bytes mismatchTestData 2).isSome = true := by
  refine ⟨?_, by decide, by decide⟩
  intro riffSize e js₁ js₂ f extra sz rest h₁ h₂ hf hx hsz hne
  rw [readWAV_append_header, runChunks_skip_list e js₁ _ none h₁,
    runChunks_fmt e f hf extra _ hx none, runChunks_skip_list e js₂ _ (some f) h₂]
  exact runChunks_data_mismatch e sz rest f hne hsz

/-- Witness for C7: the general mismatch theorem at a concrete file with no
junk chunks, the stereo PCM16 fmt, and requested channel count 4. -/
theorem readWAV_channel_mismatch_witness :
    (∀ j ∈ ([] : List JunkChunk), j.wf) ∧ WavFmt.inRange stereoPcm16Fmt ∧
    16 + ([] : List Byte).length < 4294967296 ∧ (0 : ℕ) < 4294967296 ∧
    stereoPcm16Fmt.numChannels ≠ 4 ∧
    readWAV (riffWaveHeader 0 ++ (chunksBytes [] ++ (fmtChunkBytes stereoPcm16Fmt [] ++
      (chunksBytes [] ++ (dataID ++ u32le 0 ++ []))))) 4 = none :=
  ⟨by simp, ⟨by decide, by decide, by decide, by decide, by decide, by decide⟩,
   by decide, by decide, by decide,
   readWAV_channel_mismatch.1 0 4 [] [] stereoPcm16Fmt [] 0 [] (by simp) (by simp)
     ⟨by decide, by decide, by decide, by decide, by decide, by decide⟩
     (by decide) (by decide) (by decide)⟩

theorem readFrames_count {rd : List Byte → Option (GoFloat × List Byte)} :
    ∀ {n ch : ℕ} {bs : List Byte} {frames : List (List GoFloat)} {rest : List Byte},
      readFrames rd n ch bs = some (frames, rest) → frames.length = n := by
  intro n
  induction n with
  | zero =>
    intro ch bs frames rest h
    simp only [readFrames, Option.some.injEq, Prod.mk.injEq] at h
    obtain ⟨rfl, -⟩ := h
    rfl
  | succ n ih =>
    intro ch bs frames rest h
    simp only [readFrames] at h
    split at h
    · exact absurd h (by simp)
    rename_i fr bs₁ hfr
    split at h
    · exact absurd h (by simp)
    rename_i frs bs₂ hfrs
    simp only [Option.some.injEq, Prod.mk.injEq] at h
    obtain ⟨rfl, -⟩ := h
    simp [ih hfrs]

theorem handleDataWith_shape {sel : ℕ → ℕ → Option (List Byte → Option (GoFloat × List Byte))}
    {e : ℕ} {fmt? : Option WavFmt} {sz : ℕ} {bs : List Byte} {a : AudioData}
    (h : handleDataWith sel e fmt? sz bs = some a) :
    a.samples.length = e ∧ ∀ chs ∈ a.samples, (chs.length : ℤ) = a.numSamples := by
  unfold handleDataWith at h
  split at h
  · exact absurd h (by simp)
  rename_i f
  split at h
  · exact absurd h (by simp)
  split at h
  · exact absurd h (by simp)
  split at h
  · exact absurd h (by simp)
  split at h
  · exact absurd h (by simp)
  rename_i rd hrd
  split at h
  · exact absurd h (by simp)
  rename_i frames rest hframes
  split at h
  · split at h
    · exact absurd h (by simp)
    simp only [Option.some.injEq] at h
    subst h
    refine ⟨by simp [deinterleave], ?_⟩
    intro chs hchs
    simp only [deinterleave, List.mem_map, List.mem_range] at hchs
    obtain ⟨ch, -, rfl⟩ := hchs
    simp [readFrames_count hframes]
  · simp only [Option.some.injEq] at h
    subst h
    refine ⟨by simp [deinterleave], ?_⟩
    intro chs hchs
    simp only [deinterleave, List.mem_map, List.mem_range] at hchs
    obtain ⟨ch, -, rfl⟩ := hchs
    simp [readFrames_count hframes]

theorem readChunks_shape (e : ℕ) :
    ∀ (fuel : ℕ) (bs : List Byte) (st : Option WavFmt) (a : AudioData),
      readChunks e fuel bs st = some a →
      a.samples.length = e ∧ ∀ chs ∈ a.samples, (chs.length : ℤ) = a.numSamples := by
  intro fuel
  induction fuel with
  | zero =>
    intro bs st a h
    exact absurd h (by simp [readChunks])
  | succ f ih =>
    intro bs st a h
    simp only [readChunks] at h
    split at h
    · exact absurd h (by simp)
    rename_i cid bs₁ htake
    split at h
    · exact absurd h (by simp)
    rename_i sz bs₂ hu
    split at h
    · split at h
      · exact absurd h (by simp)
      rename_i fN bs₃ hp
      exact ih bs₃ (some fN) a h
    · split at h
      · exact handleDataWith_shape h
      · split at h
        · exact absurd h (by simp)
        rename_i sk bs₃ hsk
        split at h
        · split at h
          · exact absurd h (by simp)
          exact ih _ st a h
        · exact ih bs₃ st a h

/-- C8: every `AudioData` successfully returned by `readWAV` satisfies the
AudioFrame invariant: NumSamples equals each channel's length (hence does
not exceed it), and all channel slices have the same length. -/
theorem readWAV_frame_invariant :
    ∀ (bs : List Byte) (e : ℕ) (a : AudioData), readWAV bs e = some a →
      (∀ chs ∈ a.samples, (chs.length : ℤ) = a.numSamples) ∧
      (∀ chs₁ ∈ a.samples, ∀ chs₂ ∈ a.samples, chs₁.length = chs₂.length) := by
  intro bs e a h
  unfold readWAV at h
  split at h
  · exact absurd h (by simp)
  rename_i rest hrest
  have hs := readChunks_shape e rest.length rest none a h
  refine ⟨hs.2, ?_⟩
  intro c1 h1 c2 h2
  have e1 := hs.2 c1 h1
  have e2 := hs.2 c2 h2
  omega

/-- Witness for C8: the invariant theorem applied to the mono PCM24 file. -/
theorem readWAV_frame_invariant_witness :
    readWAV pcm24File 1 = some ⟨48000, [[.finite (-1)]], 1⟩ ∧
    ((∀ chs ∈ (AudioData.mk 48000 [[.finite (-1)]] 1).samples,
        (chs.length : ℤ) = (AudioData.mk 48000 [[.finite (-1)]] 1).numSamples) ∧
     (∀ chs₁ ∈ (AudioData.mk 48000 [[.finite (-1)]] 1).samples,
        ∀ chs₂ ∈ (AudioData.mk 48000 [[.finite (-1)]] 1).samples,
        chs₁.length = chs₂.length)) :=
  ⟨by decide, readWAV_frame_invariant pcm24File 1 ⟨48000, [[.finite (-1)]], 1⟩ (by decide)⟩

theorem toInt16_bounds (u : ℕ) (hu : u < 65536) :
    -32768 ≤ toInt16 u ∧ toInt16 u ≤ 32767 := by
  unfold toInt16
  split <;> omega

theorem readPCM24Val_bounds (b0 b1 b2 : Byte) :
    -8388608 ≤ readPCM24Val b0 b1 b2 ∧ readPCM24Val b0 b1 b2 ≤ 8388607 := by
  have h0 := b0.isLt
  have h1 := b1.isLt
  have h2 := b2.isLt
  have he : readPCM24Val b0 b1 b2 =
      if (b0.val + 256 * b1.val + 65536 * b2.val) < 8388608 then
        ((b0.val + 256 * b1.val + 65536 * b2.val : ℕ) : ℤ)
      else ((b0.val + 256 * b1.val + 65536 * b2.val : ℕ) : ℤ) - 16777216 := rfl
  rw [he]
  split <;> omega

theorem readSample16_bounds {bs : List Byte} {v : GoFloat} {rest : List Byte}
    (h : readSample16 bs = some (v, rest)) :
    ∃ q : ℚ, v = .finite q ∧ -1 ≤ q ∧ q ≤ 32767 / 32768 := by
  rcases bs with _ | ⟨b0, _ | ⟨b1, t⟩⟩ <;>
    simp only [readSample16, Option.some.injEq, Prod.mk.injEq, reduceCtorEq] at h
  obtain ⟨h1, -⟩ := h
  subst h1
  refine ⟨_, rfl, ?_, ?_⟩
  · have hu : u16val b0 b1 < 65536 := by
      have := b0.isLt; have := b1.isLt
      unfold u16val; omega
    have hb := (toInt16_bounds _ hu).1
    rw [le_div_iff₀ (by norm_num : (0 : ℚ) < 32768)]
    have : (-32768 : ℚ) ≤ (toInt16 (u16val b0 b1) : ℚ) := by exact_mod_cast hb
    linarith
  · have hu : u16val b0 b1 < 65536 := by
      have := b0.isLt; have := b1.isLt
      unfold u16val; omega
    have hb := (toInt16_bounds _ hu).2
    rw [div_le_div_iff₀ (by norm_num : (0 : ℚ) < 32768) (by norm_num : (0 : ℚ) < 32768)]
    have : (toInt16 (u16val b0 b1) : ℚ) ≤ (32767 : ℚ) := by exact_mod_cast hb
    linarith

theorem readSample24_bounds {bs : List Byte} {v : GoFloat} {rest : List Byte}
    (h : readSample24 bs = some (v, rest)) :
    ∃ q : ℚ, v = .finite q ∧ -1 ≤ q ∧ q ≤ 8388607 / 8388608 := by
  rcases bs with _ | ⟨b0, _ | ⟨b1, _ | ⟨b2, t⟩⟩⟩ <;>
    simp only [readSample24, Option.some.injEq, Prod.mk.injEq, reduceCtorEq] at h
  obtain ⟨h1, -⟩ := h
  subst h1
  refine ⟨_, rfl, ?_, ?_⟩
  · have hb := (readPCM24Val_bounds b0 b1 b2).1
    rw [le_div_iff₀ (by norm_num : (0 : ℚ) < 8388608)]
    have : (-8388608 : ℚ) ≤ (readPCM24Val b0 b1 b2 : ℚ) := by exact_mod_cast hb
    linarith
  · have hb := (readPCM24Val_bounds b0 b1 b2).2
    rw [div_le_div_iff₀ (by norm_num : (0 : ℚ) < 8388608) (by norm_num : (0 : ℚ) < 8388608)]
    have : (readPCM24Val b0 b1 b2 : ℚ) ≤ (8388607 : ℚ) := by exact_mod_cast hb
    linarith

theorem sanitizeFloat32Read_bounds (g : GoFloat) :
    -1 ≤ sanitizeFloat32Read g ∧ sanitizeFloat32Read g ≤ 1 := by
  cases g with
  | nan => constructor <;> norm_num [sanitizeFloat32Read]
  | inf b => constructor <;> norm_num [sanitizeFloat32Read]
  | finite q =>
    simp only [sanitizeFloat32Read]
    split
    · norm_num
    split
    · norm_num
    rename_i h1 h2
    exact ⟨not_lt.mp h2, not_lt.mp h1⟩

theorem readSample16_inUnit {bs : List Byte} {v : GoFloat} {rest : List Byte}
    (h : readSample16 bs = some (v, rest)) : inUnit v := by
  obtain ⟨q, rfl, hlo, hhi⟩ := readSample16_bounds h
  exact ⟨q, rfl, hlo, by
    calc q ≤ 32767 / 32768 := hhi
      _ ≤ 1 := by norm_num⟩

theorem readSample24_inUnit {bs : List Byte} {v : GoFloat} {rest : List Byte}
    (h : readSample24 bs = some (v, rest)) : inUnit v := by
  obtain ⟨q, rfl, hlo, hhi⟩ := readSample24_bounds h
  exact ⟨q, rfl, hlo, by
    calc q ≤ 8388607 / 8388608 := hhi
      _ ≤ 1 := by norm_num⟩

theorem readSampleF32_inUnit {bs : List Byte} {v : GoFloat} {rest : List Byte}
    (h : readSampleF32 bs = some (v, rest)) : inUnit v := by
  rcases bs with _ | ⟨b0, _ | ⟨b1, _ | ⟨b2, _ | ⟨b3, t⟩⟩⟩⟩ <;>
    simp only [readSampleF32, Option.some.injEq, Prod.mk.injEq, reduceCtorEq] at h
  obtain ⟨h1, -⟩ := h
  subst h1
  obtain ⟨hlo, hhi⟩ := sanitizeFloat32Read_bounds (decodeFloat32 (u32val b0 b1 b2 b3))
  exact ⟨_, rfl, hlo, hhi⟩

theorem sampleReader_inUnit {af bps : ℕ} {rd : List Byte → Option (GoFloat × List Byte)}
    (h : sampleReader af bps = some rd) :
    ∀ (bs : List Byte) (v : GoFloat) (rest : List Byte), rd bs = some (v, rest) → inUnit v := by
  unfold sampleReader at h
  split at h
  · split at h
    · simp only [Option.some.injEq] at h
      subst h
      exact fun bs v rest hv => readSample16_inUnit hv
    split at h
    · simp only [Option.some.injEq] at h
      subst h
      exact fun bs v rest hv => readSample24_inUnit hv
    · exact absurd h (by simp)
  split at h
  · split at h
    · simp only [Option.some.injEq] at h
      subst h
      exact fun bs v rest hv => readSampleF32_inUnit hv
    · exact absurd h (by simp)
  · exact absurd h (by simp)

theorem readFrame_inUnit {rd : List Byte → Option (GoFloat × List Byte)}
    (hrd : ∀ (bs : List Byte) (v : GoFloat) (rest : List Byte),
      rd bs = some (v, rest) → inUnit v) :
    ∀ {ch : ℕ} {bs : List Byte} {fr : List GoFloat} {rest : List Byte},
      readFrame rd ch bs = some (fr, rest) → ∀ v ∈ fr, inUnit v := by
  intro ch
  induction ch with
  | zero =>
    intro bs fr rest h v hv
    simp only [readFrame, Option.some.injEq, Prod.mk.injEq] at h
    obtain ⟨rfl, -⟩ := h
    simp at hv
  | succ n ih =>
    intro bs fr rest h v hv
    simp only [readFrame] at h
    split at h
    · exact absurd h (by simp)
    rename_i v₀ bs₁ hv₀
    split at h
    · exact absurd h (by simp)
    rename_i vs bs₂ hvs
    simp only [Option.some.injEq, Prod.mk.injEq] at h
    obtain ⟨rfl, -⟩ := h
    rcases List.mem_cons.mp hv with rfl | hmem
    · exact hrd _ _ _ hv₀
    · exact ih hvs v hmem

theorem readFrames_inUnit {rd : List Byte → Option (GoFloat × List Byte)}
    (hrd : ∀ (bs : List Byte) (v : GoFloat) (rest : List Byte),
      rd bs = some (v, rest) → inUnit v) :
    ∀ {n ch : ℕ} {bs : List Byte} {frames : List (List GoFloat)} {rest : List Byte},
      readFrames rd n ch bs = some (frames, rest) → ∀ fr ∈ frames, ∀ v ∈ fr, inUnit v := by
  intro n
  induction n with
  | zero =>
    intro ch bs frames rest h fr hfr
    simp only [readFrames, Option.some.injEq, Prod.mk.injEq] at h
    obtain ⟨rfl, -⟩ := h
    simp at hfr
  | succ n ih =>
    intro ch bs frames rest h fr hfr
    simp only [readFrames] at h
    split at h
    · exact absurd h (by simp)
    rename_i fr₀ bs₁ hfr₀
    split at h
    · exact absurd h (by simp)
    rename_i frs bs₂ hfrs
    simp only [Option.some.injEq, Prod.mk.injEq] at h
    obtain ⟨rfl, -⟩ := h
    rcases List.mem_cons.mp hfr with rfl | hmem
    · exact readFrame_inUnit hrd hfr₀
    · exact ih hfrs fr hmem

theorem getD_inUnit :
    ∀ (l : List GoFloat) (n : ℕ) (d : GoFloat),
      (∀ v ∈ l, inUnit v) → inUnit d → inUnit (l.getD n d)
  | [], n, d, _, hd => by simpa [List.getD] using hd
  | a :: t, 0, d, h, hd => by simpa using h a (by simp)
  | a :: t, n + 1, d, h, hd => by
    have := getD_inUnit t n d (fun v hv => h v (by simp [hv])) hd
    simpa using this

theorem handleData_inUnit {e : ℕ} {fmt? : Option WavFmt} {sz : ℕ} {bs : List Byte}
    {a : AudioData} (h : handleDataWith sampleReader e fmt? sz bs = some a) :
    ∀ chs ∈ a.samples, ∀ v ∈ chs, inUnit v := by
  unfold handleDataWith at h
  split at h
  · exact absurd h (by simp)
  rename_i f
  split at h
  · exact absurd h (by simp)
  split at h
  · exact absurd h (by simp)
  split at h
  · exact absurd h (by simp)
  split at h
  · exact absurd h (by simp)
  rename_i rd hrd
  split at h
  · exact absurd h (by simp)
  rename_i frames rest hframes
  have hall : ∀ fr ∈ frames, ∀ v ∈ fr, inUnit v :=
    readFrames_inUnit (sampleReader_inUnit hrd) hframes
  have hzero : inUnit (GoFloat.finite 0) := ⟨0, rfl, by norm_num, by norm_num⟩
  have hfinal : ∀ chs ∈ deinterleave e frames, ∀ v ∈ chs, inUnit v := by
    intro chs hchs v hv
    simp only [deinterleave, List.mem_map, List.mem_range] at hchs
    obtain ⟨ch, -, rfl⟩ := hchs
    simp only [List.mem_map] at hv
    obtain ⟨fr, hfr, rfl⟩ := hv
    exact getD_inUnit fr ch _ (hall fr hfr) hzero
  split at h
  · split at h
    · exact absurd h (by simp)
    simp only [Option.some.injEq] at h
    subst h
    exact hfinal
  · simp only [Option.some.injEq] at h
    subst h
    exact hfinal

theorem readChunks_inUnit (e : ℕ) :
    ∀ (fuel : ℕ) (bs : List Byte) (st : Option WavFmt) (a : AudioData),
      readChunks e fuel bs st = some a → ∀ chs ∈ a.samples, ∀ v ∈ chs, inUnit v := by
  intro fuel
  induction fuel with
  | zero =>
    intro bs st a h
    exact absurd h (by simp [readChunks])
  | succ f ih =>
    intro bs st a h
    simp only [readChunks] at h
    split at h
    · exact absurd h (by simp)
    rename_i cid bs₁ htake
    split at h
    · exact absurd h (by simp)
    rename_i sz bs₂ hu
    split at h
    · split at h
      · exact absurd h (by simp)
      rename_i fN bs₃ hp
      exact ih bs₃ (some fN) a h
    · split at h
      · exact handleData_inUnit h
      · split at h
        · exact absurd h (by simp)
        rename_i sk bs₃ hsk
        split at h
        · split at h
          · exact absurd h (by simp)
          exact ih _ st a h
        · exact ih bs₃ st a h

/-- C9: every sample of every `AudioData` accepted by `readWAV` is finite and
lies in [-1, 1]; moreover PCM16 samples lie in [-1, 32767/32768], PCM24
samples in [-1, 8388607/8388608], and the float32 path clamps to [-1, 1]
after zeroing NaN and infinities. -/
theorem readWAV_sample_range :
    (∀ (bs : List Byte) (e : ℕ) (a : AudioData), readWAV bs e = some a →
      ∀ chs ∈ a.samples, ∀ v ∈ chs, ∃ q : ℚ, v = .finite q ∧ -1 ≤ q ∧ q ≤ 1) ∧
    (∀ (bs : List Byte) (v : GoFloat) (rest : List Byte), readSample16 bs = some (v, rest) →
      ∃ q : ℚ, v = .finite q ∧ -1 ≤ q ∧ q ≤ 32767 / 32768) ∧
    (∀ (bs : List Byte) (v : GoFloat) (rest : List Byte), readSample24 bs = some (v, rest) →
      ∃ q : ℚ, v = .finite q ∧ -1 ≤ q ∧ q ≤ 8388607 / 8388608) ∧
    (∀ g : GoFloat, -1 ≤ sanitizeFloat32Read g ∧ sanitizeFloat32Read g ≤ 1) ∧
    sanitizeFloat32Read .nan = 0 ∧ (∀ b : Bool, sanitizeFloat32Read (.inf b) = 0) := by
  refine ⟨?_, fun bs v rest h => readSample16_bounds h,
    fun bs v rest h => readSample24_bounds h, sanitizeFloat32Read_bounds, rfl, fun b => rfl⟩
  intro bs e a h
  unfold readWAV at h
  split at h
  · exact absurd h (by simp)
  rename_i rest hrest
  exact readChunks_inUnit e rest.length rest none a h

/-- Witness for C9: the range theorem applied to the concrete mixed-chunk
PCM16 file accepted by `readWAV`. -/
theorem readWAV_sample_range_witness :
    readWAV chunkOrderOkFile 2
      = some ⟨44100, [[.finite (1 / 32768)], [.finite (1 / 16384)]], 1⟩ ∧
    (∀ chs ∈ (AudioData.mk 44100 [[.finite (1 / 32768)], [.finite (1 / 16384)]] 1).samples,
      ∀ v ∈ chs, ∃ q : ℚ, v = .finite q ∧ -1 ≤ q ∧ q ≤ 1) :=
  ⟨by decide,
   readWAV_sample_range.1 chunkOrderOkFile 2
     ⟨44100, [[.finite (1 / 32768)], [.finite (1 / 16384)]], 1⟩ (by decide)⟩

theorem handleData_old_new {e : ℕ} {fmt? : Option WavFmt} {sz : ℕ} {bs : List Byte} :
    handleDataWith sampleReaderOld e fmt? sz bs = handleDataWith sampleReader e fmt? sz bs ∨
    ((match fmt? with
      | none => none
      | some f => some (f.audioFormat, f.bitsPerSample)) = some ((1 : ℕ), (24 : ℕ)) ∧
      handleDataWith sampleReaderOld e fmt? sz bs = none) := by
  cases fmt? with
  | none => left; rfl
  | some f =>
    by_cases h24 : f.audioFormat = 1 ∧ f.bitsPerSample = 24
    · right
      constructor
      · simp [h24.1, h24.2]
      · have hsel : sampleReaderOld f.audioFormat f.bitsPerSample = none := by
          rw [h24.1, h24.2]
          rfl
        simp only [handleDataWith]
        split
        · rfl
        split
        · rfl
        split
        · rfl
        rw [hsel]
    · left
      have hsel : sampleReaderOld f.audioFormat f.bitsPerSample
          = sampleReader f.audioFormat f.bitsPerSample := by
        unfold sampleReaderOld sampleReader
        by_cases h1 : f.audioFormat = 1
        · rw [if_pos h1, if_pos h1]
          by_cases h16 : f.bitsPerSample = 16
          · rw [if_pos h16, if_pos h16]
          · rw [if_neg h16, if_neg h16]
            have h24' : ¬f.bitsPerSample = 24 := fun hh => h24 ⟨h1, hh⟩
            rw [if_neg h24']
        · rw [if_neg h1, if_neg h1]
      simp only [handleDataWith]
      rw [hsel]

theorem readChunks_old_new (e : ℕ) :
    ∀ (fuel : ℕ) (bs : List Byte) (st : Option WavFmt),
      readChunksOld e fuel bs st = readChunks e fuel bs st ∨
      (dataFmtAt fuel bs st = some ((1 : ℕ), (24 : ℕ)) ∧
        readChunksOld e fuel bs st = none) := by
  intro fuel
  induction fuel with
  | zero =>
    intro bs st
    left
    rfl
  | succ f ih =>
    intro bs st
    simp only [readChunksOld, readChunks, dataFmtAt]
    cases htake : takeExact 4 bs with
    | none => left; simp [htake]
    | some p =>
      obtain ⟨cid, bs₁⟩ := p
      simp only [htake]
      cases hu : readU32 bs₁ with
      | none => left; rfl
      | some q =>
        obtain ⟨sz, bs₂⟩ := q
        simp only [hu]
        by_cases hfmt : cid = fmtID
        · simp only [if_pos hfmt]
          cases hp : parseFmt sz bs₂ with
          | none => left; rfl
          | some r =>
            obtain ⟨fN, bs₃⟩ := r
            simp only [hp]
            exact ih bs₃ (some fN)
        · simp only [if_neg hfmt]
          by_cases hdata : cid = dataID
          · simp only [if_pos hdata]
            exact handleData_old_new
          · simp only [if_neg hdata]
            cases hsk : takeExact sz bs₂ with
            | none => left; rfl
            | some r =>
              obtain ⟨sk, bs₃⟩ := r
              simp only [hsk]
              by_cases hodd : sz % 2 = 1
              · simp only [if_pos hodd]
                cases bs₃ with
                | nil => left; rfl
                | cons hd tl => exact ih tl st
              · simp only [if_neg hodd]
                exact ih bs₃ st

/-- C10 counterexample: a stereo PCM24 file read with requested channel
count 4.  Its data chunk is PCM 24-bit, yet the two `readWAV` revisions
return the same result (the channel-mismatch error precedes the bit-depth
dispatch), and in particular the new version does not decode it — so the
two revisions do not differ on every PCM 24-bit input. -/
theorem pcm24_mismatch_same_result :
    readWAVOld pcm24StereoFile 4 = readWAV pcm24StereoFile 4 ∧
    dataFormat pcm24StereoFile = some ((1 : ℕ), (24 : ℕ)) ∧
    readWAV pcm24StereoFile 4 = none := by
  decide

/-- C10 (amended): the two `readWAV` revisions agree on every input except
possibly those whose data chunk is reached with a PCM 24-bit fmt in effect,
where the old revision always errors; on the concrete mono PCM24 file the
new revision decodes the sign-extended sample −8388608/8388608 = −1 while
the old revision rejects it.  (On PCM 16-bit and IEEE float32 inputs the
two agree, since any disagreement forces a PCM 24-bit data chunk.) -/
theorem readWAV_old_new_agree :
    (∀ (bs : List Byte) (e : ℕ),
      readWAVOld bs e = readWAV bs e ∨
      (dataFormat bs = some ((1 : ℕ), (24 : ℕ)) ∧ readWAVOld bs e = none)) ∧
    readWAV pcm24File 1 = some ⟨48000, [[.finite (-1)]], 1⟩ ∧
    readWAVOld pcm24File 1 = none ∧
    dataFormat pcm24File = some ((1 : ℕ), (24 : ℕ)) := by
  refine ⟨?_, by decide, by decide, by decide⟩
  intro bs e
  unfold readWAVOld readWAV dataFormat
  cases hph : parseRiffHeader bs with
  | none => left; rfl
  | some rest =>
    simp only [hph]
    exact readChunks_old_new e rest.length rest none
